import Mathlib

/-!
# Document-pipeline verification

A shallow embedding of the document ingestion / question-answering pipeline
(orchestrator, validators, chunking, local store, rollback helper and the
BM25 ranking step of the knowledge-base search), together with theorems
checking the specified properties against the embedded code.

Python strings are modelled as lists of characters (code points); all the
inputs considered here are ASCII, for which the modelled `lower`, `strip`,
`split` and `isalpha` coincide with Python's unicode-aware versions.
-/

set_option maxHeartbeats 1000000

namespace DocQA

/-- Python strings as lists of code points. -/
abbrev PyStr := List Char

/-- The whitespace characters recognised by Python's `str.strip()` and
`str.split()` on ASCII input. -/
def pyWs (c : Char) : Bool :=
  c == ' ' || c == '\t' || c == '\n' || c == '\r' || c == '\x0b' || c == '\x0c'

/-- Python `s.strip()`: remove leading and trailing whitespace. -/
def pyStrip (s : PyStr) : PyStr :=
  ((s.dropWhile pyWs).reverse.dropWhile pyWs).reverse

/-- Helper for `pySplitWs`, accumulating the current word reversed. -/
def pySplitWsAux : PyStr → PyStr → List PyStr
  | [], acc => if acc.isEmpty then [] else [acc.reverse]
  | c :: cs, acc =>
    if pyWs c then
      if acc.isEmpty then pySplitWsAux cs [] else acc.reverse :: pySplitWsAux cs []
    else pySplitWsAux cs (c :: acc)

/-- Python `s.split()` with no argument: split on whitespace runs,
producing no empty fields. -/
def pySplitWs (s : PyStr) : List PyStr := pySplitWsAux s []

/-- Python `s.lower()` on ASCII input. -/
def pyLower (s : PyStr) : PyStr := s.map Char.toLower

/-- `sub` is a leading block of `s` (helper for substring containment). -/
def hasPfx : PyStr → PyStr → Bool
  | _, [] => true
  | [], _ :: _ => false
  | a :: s, b :: sub => a == b && hasPfx s sub

/-- Python `sub in s`: contiguous substring containment. -/
def hasSub : PyStr → PyStr → Bool
  | [], sub => sub.isEmpty
  | c :: cs, sub => hasPfx (c :: cs) sub || hasSub cs sub

/-! ## backend/app/services/chunk_utils.py -/

/-- Scanner for `re.split(r"\n{2,}", text)`: a maximal run of two or more
newlines separates fields (the regex match is leftmost and greedy, so it
always consumes the whole newline run). `acc` is the current field,
reversed; `fuel` only makes the recursion structural and is irrelevant
once it is at least the length of the input (see `splitParasAux_cons`). -/
def splitParasFuel : Nat → PyStr → PyStr → List PyStr
  | 0, _, acc => [acc.reverse]
  | fuel + 1, s, acc =>
    match s with
    | [] => [acc.reverse]
    | c :: cs =>
      if c = '\n' ∧ cs.head? = some '\n' then
        acc.reverse :: splitParasFuel fuel (cs.dropWhile (fun d => d == '\n')) []
      else
        splitParasFuel fuel cs (c :: acc)

/-- The scanner at its natural fuel. -/
def splitParasAux (s acc : PyStr) : List PyStr := splitParasFuel s.length s acc

theorem splitParasFuel_fuel_irrel :
    ∀ (fuel₁ fuel₂ : Nat) (s acc : PyStr), s.length ≤ fuel₁ → s.length ≤ fuel₂ →
      splitParasFuel fuel₁ s acc = splitParasFuel fuel₂ s acc := by
  intro fuel₁
  induction fuel₁ with
  | zero =>
    intro fuel₂ s acc h1 _
    rw [List.length_eq_zero.mp (Nat.le_zero.mp h1)]
    cases fuel₂ <;> rfl
  | succ n ih =>
    intro fuel₂ s acc h1 h2
    cases s with
    | nil => cases fuel₂ <;> rfl
    | cons c cs =>
      cases fuel₂ with
      | zero => simp at h2
      | succ m =>
        simp only [splitParasFuel]
        by_cases hc : c = '\n' ∧ cs.head? = some '\n'
        · rw [if_pos hc, if_pos hc]
          have hd : (cs.dropWhile (fun d => d == '\n')).length ≤ cs.length :=
            List.IsSuffix.length_le (List.dropWhile_suffix _)
          simp only [List.length_cons] at h1 h2
          rw [ih m (cs.dropWhile (fun d => d == '\n')) []
            (le_trans hd (by omega)) (le_trans hd (by omega))]
        · rw [if_neg hc, if_neg hc]
          simp only [List.length_cons] at h1 h2
          exact ih _ _ _ (Nat.succ_le_succ_iff.mp h1) (Nat.succ_le_succ_iff.mp h2)

theorem splitParasAux_nil (acc : PyStr) : splitParasAux [] acc = [acc.reverse] := rfl

theorem splitParasAux_cons (c : Char) (cs acc : PyStr) :
    splitParasAux (c :: cs) acc =
      if c = '\n' ∧ cs.head? = some '\n' then
        acc.reverse :: splitParasAux (cs.dropWhile (fun d => d == '\n')) []
      else
        splitParasAux cs (c :: acc) := by
  unfold splitParasAux
  simp only [List.length_cons, splitParasFuel]
  by_cases hc : c = '\n' ∧ cs.head? = some '\n'
  · rw [if_pos hc, if_pos hc]
    rw [splitParasFuel_fuel_irrel cs.length (cs.dropWhile (fun d => d == '\n')).length _ []
      (List.IsSuffix.length_le (List.dropWhile_suffix _)) (le_refl _)]
  · rw [if_neg hc, if_neg hc]

/-- `re.split(r"\n{2,}", text)`. -/
def splitParas (s : PyStr) : List PyStr := splitParasAux s []

/-- The paragraph list of `split_into_chunks`:
`[p.strip() for p in re.split(r"\n{2,}", text) if p.strip()]`. -/
def parasOf (text : PyStr) : List PyStr :=
  ((splitParas text).map pyStrip).filter (fun p => ¬ p.isEmpty)

/-- The blank-line separator used when merging paragraphs into a chunk. -/
def nlnl : PyStr := ['\n', '\n']

/-- The accumulation loop of `split_into_chunks`: greedily pack stripped
paragraphs into the running buffer while the merged length fits. -/
def chunkFold (max_chars : Nat) : List PyStr → List PyStr × PyStr → List PyStr × PyStr
  | [], st => st
  | p :: ps, (chunks, buf) =>
    if buf.length + p.length + 2 ≤ max_chars then
      chunkFold max_chars ps (chunks, if buf.isEmpty then p else buf ++ nlnl ++ p)
    else
      chunkFold max_chars ps ((if buf.isEmpty then chunks else chunks ++ [buf]), p)

/-- The trailing `if buf: chunks.append(buf)` of `split_into_chunks`. -/
def finishChunks (st : List PyStr × PyStr) : List PyStr :=
  if st.2.isEmpty then st.1 else st.1 ++ [st.2]

/-- `split_into_chunks(text, max_chars)` from
backend/app/services/chunk_utils.py. -/
def split_into_chunks (text : PyStr) (max_chars : Nat) : List PyStr :=
  finishChunks (chunkFold max_chars (parasOf text) ([], []))

/-- Reassembly of chunks with the documented blank-line separator,
`"\n\n".join(chunks)`. -/
def joinSep : List PyStr → PyStr
  | [] => []
  | [x] => x
  | x :: xs => x ++ nlnl ++ joinSep xs

/-! ## backend/app/services/validators.py -/

/-- `SummaryValidator.validate(raw_text, summary)`: verdict plus the
rejection reason code of the returned details dictionary. -/
def SummaryValidator_validate (raw_text summary : PyStr) : Bool × Option String :=
  if summary.isEmpty || (pyStrip summary).isEmpty then (false, some "empty_summary")
  else if summary.length < 40 then (false, some "too_short")
  else if summary.length > 4000 then (false, some "too_long")
  else
    let src_terms := ((pySplitWs raw_text).take 500).map pyLower
    let hit := (((pySplitWs (pyLower summary)).dedup).filter (fun t => t ∈ src_terms)).length
    if hit < 2 then (false, some "low_coverage") else (true, none)

/-- The sentinel single-entry lists accepted by `EntityValidator`. -/
def noEntitySentinels : List PyStr :=
  ["no entities found.".data, "no entities found".data, "none".data]

/-- `EntityValidator.validate(raw_text, entities)`. The Python presence
test `present / max(1, len(entities)) < 0.2` is evaluated in IEEE doubles;
for `len(entities) ≤ 200` (guaranteed by the preceding cap check) that
float comparison agrees exactly with the rational test
`5 * present < len(entities)` used here, because the closest fraction
above 1/5 with denominator ≤ 200 exceeds the double nearest to 0.2. The
extra `present_ratio` payload field of a `low_presence` rejection is not
modelled. -/
def EntityValidator_validate (raw_text : PyStr) (entities : Option (List PyStr)) :
    Bool × Option String :=
  match entities with
  | none => (true, none)
  | some es =>
    if es.length > 200 then (false, some "too_many_entities")
    else if es.length = 1 ∧ pyLower (es.headD []) ∈ noEntitySentinels then (true, none)
    else
      let raw_lower := pyLower raw_text
      let present := (es.filter (fun e => !(pyStrip e).isEmpty && hasSub raw_lower (pyLower e))).length
      if ¬ es.isEmpty ∧ 5 * present < es.length then (false, some "low_presence")
      else (true, none)

/-- The join `"\n".join(contexts)`. -/
def joinNl : List PyStr → PyStr
  | [] => []
  | [x] => x
  | x :: xs => x ++ '\n' :: joinNl xs

/-- `QAValidator.validate(answer, contexts)`. -/
def QAValidator_validate (answer : PyStr) (contexts : List PyStr) : Bool × Option String :=
  if answer.isEmpty || (pyStrip answer).isEmpty then (false, some "empty_answer")
  else
    let joined := pyLower (joinNl contexts)
    let tokens := (pySplitWs (pyLower answer)).filter (fun t => t.all Char.isAlpha)
    let hits := ((tokens.dedup).filter (fun t => hasSub joined t)).length
    if hits < 2 ∧ ¬ hasSub (pyLower answer) ("don't know".data) then
      (false, some "ungrounded_answer")
    else (true, none)

/-! ## storage/local_store.py

The docs index is modelled as a map from document id to document row.
The Python defaults `sections or []`, `summary or ""`, `entities or []`
coincide with storing the passed values, because for lists and strings
`x or default` equals `x` when `x` is non-empty and equals the equal-valued
default when `x` is empty. -/

/-- A JSON-ish payload (Python dict) carried by review and disagreement
records; only the fields the orchestrator inspects are modelled
(`verdict` for critic outputs, `reason` for validator details), plus an
opaque `raw` field so distinct payloads can be written down. -/
structure PyObj where
  verdict : Option String := none
  reason : Option String := none
  raw : String := ""
deriving DecidableEq, Repr

/-- A document row of the docs index. -/
structure Doc where
  raw_text : PyStr
  sections : List PyStr
  summary : PyStr
  entities : List PyStr
  reviews : List (String × PyObj)
  disagreements : List (String × PyObj)
deriving DecidableEq, Repr

/-- The persistent docs index, keyed by document id. -/
def Store : Type := String → Option Doc

/-- `put_document`: create or overwrite the row for `doc_id`, with fresh
empty `reviews` and `disagreements` lists. -/
def put_document (s : Store) (doc_id : String) (raw_text : PyStr) (sections : List PyStr)
    (summary : PyStr) (entities : List PyStr) : Store :=
  fun k =>
    if k = doc_id then
      some { raw_text := raw_text, sections := sections, summary := summary,
             entities := entities, reviews := [], disagreements := [] }
    else s k

/-- `get_document`. -/
def get_document (s : Store) (doc_id : String) : Option Doc := s doc_id

/-- `update_summary`: overwrite the summary (and the entities when given)
of an existing row; a silent no-op when `doc_id` is absent. -/
def update_summary (s : Store) (doc_id : String) (summary : PyStr)
    (entities : Option (List PyStr)) : Store :=
  match s doc_id with
  | none => s
  | some d =>
    let newEntities := match entities with | none => d.entities | some es => es
    fun k =>
      if k = doc_id then some { d with summary := summary, entities := newEntities }
      else s k

/-- `append_review`: append a `{type, payload, ts}` record to an existing
row's `reviews`; a silent no-op when `doc_id` is absent. Timestamps are
not modelled. -/
def append_review (s : Store) (doc_id ty : String) (payload : PyObj) : Store :=
  match s doc_id with
  | none => s
  | some d =>
    fun k =>
      if k = doc_id then some { d with reviews := d.reviews ++ [(ty, payload)] }
      else s k

/-- `append_disagreement`: append a `{phase, details, ts}` record to an
existing row's `disagreements`; a silent no-op when `doc_id` is absent. -/
def append_disagreement (s : Store) (doc_id phase : String) (details : PyObj) : Store :=
  match s doc_id with
  | none => s
  | some d =>
    fun k =>
      if k = doc_id then some { d with disagreements := d.disagreements ++ [(phase, details)] }
      else s k

/-! ## backend/app/services/rollback.py -/

/-- `SummarySnapshot`. -/
structure SummarySnapshot where
  doc_id : String
  summary : PyStr
  entities : List PyStr
deriving DecidableEq, Repr

/-- `take_summary_snapshot`: read the current summary / entities, or
nothing when the document is absent. -/
def take_summary_snapshot (s : Store) (doc_id : String) : Option SummarySnapshot :=
  match s doc_id with
  | none => none
  | some d => some { doc_id := doc_id, summary := d.summary, entities := d.entities }

/-- `rollback_summary`: re-issue a write restoring the snapshot fields. -/
def rollback_summary (s : Store) (snap : SummarySnapshot) : Store :=
  update_summary s snap.doc_id snap.summary (some snap.entities)

/-! ## backend/app/services/orchestrator.py

The external collaborators (parser agent, summarizer, entity extractor,
critic reviewer and arbiter calls, the MCP `kb_add` tool) are out of
scope; their results enter the functions below as arguments. Stages 2-3
of `ingest_document` (summarization / entity extraction with their
validation fallbacks) never touch the store and always produce a value,
which is the `summary` / `entities` argument here. -/

/-- Step 4 of `ingest_document`: the non-blocking critic fan-out over the
summary. `bias`, `comp`, `sec`, `perf_sum`, `perf_ent` are the parsed
critic outputs and `arb` the arbiter output; the store effect below is
the sequence of appends the coordinator issues when the critic calls all
return. The arbitration call is issued only when the bias verdict is
`"pass"` and the completeness verdict is `"fail"`. -/
def ingest_reviews_phase (s : Store) (doc_id : String)
    (bias comp sec arb perf_sum perf_ent : PyObj) : Store :=
  let s1 := append_review s doc_id "bias_summary" bias
  let s2 := append_review s1 doc_id "completeness_summary" comp
  let s3 := append_review s2 doc_id "security_summary" sec
  let s4 :=
    if bias.verdict = some "pass" ∧ comp.verdict = some "fail" then
      append_disagreement s3 doc_id "summary_review" arb
    else s3
  let s5 := append_review s4 doc_id "perf_summarization" perf_sum
  append_review s5 doc_id "perf_entity_extraction" perf_ent

/-- Ingestion errors surfaced to the caller along the modelled paths. -/
inductive IngestErr
  | parsingError
deriving DecidableEq, Repr

/-- `ingest_document(file_path, doc_id)`: parse check, summarize/extract
(store-neutral, see above), critic reviews, KB indexing (`kb_ok` tells
whether the `mcp_kb_add` call succeeded; on failure a `kb_index_error`
review append is attempted), then the single `put_document` persistence
write. Returns the `(sections, summary, entities)` result or the raised
error, together with the final store. -/
def ingest_document (s : Store) (doc_id : String) (raw_text : PyStr)
    (sections : List PyStr) (summary : PyStr) (entities : List PyStr)
    (bias comp sec arb perf_sum perf_ent : PyObj) (kb_ok : Bool) (kb_err : PyObj) :
    Except IngestErr (List PyStr × PyStr × List PyStr) × Store :=
  if (pyStrip raw_text).isEmpty then (Except.error IngestErr.parsingError, s)
  else
    let s4 := ingest_reviews_phase s doc_id bias comp sec arb perf_sum perf_ent
    let s5 := if kb_ok then s4 else append_review s4 doc_id "kb_index_error" kb_err
    let s6 := put_document s5 doc_id raw_text sections summary entities
    (Except.ok (sections, summary, entities), s6)

/-- Outcome of `QAWorkflow.run`. -/
inductive QAOutcome
  | ok (answer : PyStr) (contexts : List PyStr)
  | validationError (reason : Option String)
  | qaError (msg : String)
deriving DecidableEq, Repr

/-- `QAWorkflow.run(question, contexts)` from agents/workflows.py, given
the QA agent call outcome `agent_result` (the error message, or the final
message content used as the answer): validation failure raises
`ValidationError` with the validator details, any other agent failure
raises `QAError`. -/
def QAWorkflow_run (contexts : List PyStr) (agent_result : Except String PyStr) : QAOutcome :=
  match agent_result with
  | Except.error e => QAOutcome.qaError e
  | Except.ok answer =>
    match QAValidator_validate answer contexts with
    | (true, _) => QAOutcome.ok answer contexts
    | (false, reason) => QAOutcome.validationError reason

/-- The "don't know" sentinel answer. -/
def dontKnowAnswer : PyStr := "I don't know from the provided documents.".data

/-- The bias/completeness/security critic appends of `answer_question`,
followed by the disagreement check: an arbitration record is appended
when one of the bias/completeness verdicts is `"pass"` and the other is
`"fail"`. All appends happen only when a document id is present. -/
def qa_reviews_phase (s : Store) (doc_id : Option String) (bias comp sec arb : PyObj) : Store :=
  match doc_id with
  | none => s
  | some d =>
    let s1 := append_review s d "bias_qa" bias
    let s2 := append_review s1 d "completeness_qa" comp
    let s3 := append_review s2 d "security_qa" sec
    if (bias.verdict = some "pass" ∧ comp.verdict = some "fail") ∨
       (bias.verdict = some "fail" ∧ comp.verdict = some "pass") then
      append_disagreement s3 d "qa_review" arb
    else s3

/-- The trailing perf-metrics append of `answer_question`. -/
def qa_perf_phase (s : Store) (doc_id : Option String) (perf : PyObj) : Store :=
  match doc_id with
  | none => s
  | some d => append_review s d "perf_qa" perf

/-- `QAError` raised by `answer_question`. -/
inductive QAErr
  | qaError (msg : String)
deriving DecidableEq, Repr

/-- The answer + review stages of `answer_question(question, doc_id)`
(the retrieval stage builds `contexts` from collaborator reads and never
writes the store). On a validation rejection the "don't know" sentinel is
returned with the original contexts and, when a document id is present,
the rejection reason is recorded as a `qa_validator_note` review (the
Python payload `{"details": ve.details}` is modelled by a payload whose
`reason` field is the details' reason code); on any other agent failure
`QAError` is raised. The critic and perf phases follow. -/
def answer_question (s : Store) (doc_id : Option String) (contexts : List PyStr)
    (agent_result : Except String PyStr) (bias comp sec arb perf : PyObj) :
    Except QAErr (PyStr × List PyStr) × Store :=
  match QAWorkflow_run contexts agent_result with
  | QAOutcome.qaError e => (Except.error (QAErr.qaError e), s)
  | QAOutcome.ok answer ctxs =>
    let s2 := qa_reviews_phase s doc_id bias comp sec arb
    let s3 := qa_perf_phase s2 doc_id perf
    (Except.ok (answer, ctxs), s3)
  | QAOutcome.validationError reason =>
    let s1 :=
      match doc_id with
      | some d => append_review s d "qa_validator_note" { reason := reason }
      | none => s
    let s2 := qa_reviews_phase s1 doc_id bias comp sec arb
    let s3 := qa_perf_phase s2 doc_id perf
    (Except.ok (dontKnowAnswer, contexts), s3)

/-- Errors raised by `apply_user_edit`. -/
inductive EditErr
  | validationError (reason : Option String)
  | writeError
deriving DecidableEq, Repr

/-- The `raw_text = (doc or {}).get("raw_text", "")` read of
`apply_user_edit`. -/
def stored_raw_text (s : Store) (doc_id : String) : PyStr :=
  match get_document s doc_id with
  | some d => d.raw_text
  | none => []

/-- `apply_user_edit(doc_id, summary, entities)`: snapshot, validate the
summary when non-empty and the entities when given, raise
`ValidationError` without writing on a rejection, otherwise write via
`update_summary`. `write_fails` models the store write raising;
`fail_state` is the unspecified store state the failed write left behind,
to which the rollback write is applied (when a snapshot exists) before
the error propagates. -/
def apply_user_edit (s : Store) (doc_id : String) (summary : PyStr)
    (entities : Option (List PyStr)) (write_fails : Bool) (fail_state : Store) :
    Except EditErr Unit × Store :=
  let snapshot := take_summary_snapshot s doc_id
  let raw_text := stored_raw_text s doc_id
  if ¬ summary.isEmpty ∧ (SummaryValidator_validate raw_text summary).1 = false then
    (Except.error (EditErr.validationError (SummaryValidator_validate raw_text summary).2), s)
  else if entities.isSome ∧ (EntityValidator_validate raw_text entities).1 = false then
    (Except.error (EditErr.validationError (EntityValidator_validate raw_text entities).2), s)
  else if write_fails then
    (Except.error EditErr.writeError,
      match snapshot with
      | some snap => rollback_summary fail_state snap
      | none => fail_state)
  else
    (Except.ok (), update_summary s doc_id summary entities)

/-! ## mcp_server/server.py: the ranking step of `kb_search`

`kb_search` scores every indexed chunk with BM25 (floating point, out of
scope here) and then ranks with
`sorted(list(enumerate(scores)), key=lambda t: t[1], reverse=True)[:max(1, int(top_k))]`.
Python's `sorted` is stable, and a stable descending sort is the unique
permutation that is sorted by score descending and preserves the input
order of equal-score entries; `insertRanked`/`rankDesc` below compute
exactly that permutation. Scores are modelled as rationals. -/

/-- Insert an entry after every already-placed entry of greater or equal
score (stability for the later-inserted entry). -/
def insertRanked (x : Nat × ℚ) : List (Nat × ℚ) → List (Nat × ℚ)
  | [] => [x]
  | y :: ys => if y.2 < x.2 then x :: y :: ys else y :: insertRanked x ys

/-- Stable descending sort by score: the entries are inserted in input
order. -/
def rankDesc (l : List (Nat × ℚ)) : List (Nat × ℚ) :=
  l.foldl (fun acc x => insertRanked x acc) []

/-- `enumerate(scores)` starting at `n`. -/
def enumFromQ (n : Nat) : List ℚ → List (Nat × ℚ)
  | [] => []
  | q :: qs => (n, q) :: enumFromQ (n + 1) qs

/-- The ranked, truncated result of `kb_search`: chunk indices in
insertion order paired with their scores, stably sorted by score
descending and cut to `max(1, int(top_k))` entries. -/
def kb_search_ranked (scores : List ℚ) (top_k : Int) : List (Nat × ℚ) :=
  (rankDesc (enumFromQ 0 scores)).take (max 1 top_k).toNat

/-! ## Helper lemmas about the store -/

/-- A review record `x` is attached to the document at key `k`. -/
def hasReview (s : Store) (k : String) (x : String × PyObj) : Prop :=
  ∃ doc, s k = some doc ∧ x ∈ doc.reviews

theorem pyStrip_nil : pyStrip [] = [] := rfl

theorem append_review_at {s : Store} {d : String} {doc : Doc} (h : s d = some doc)
    (ty : String) (p : PyObj) :
    (append_review s d ty p) d = some { doc with reviews := doc.reviews ++ [(ty, p)] } := by
  simp [append_review, h]

theorem append_disagreement_at {s : Store} {d : String} {doc : Doc} (h : s d = some doc)
    (ph : String) (p : PyObj) :
    (append_disagreement s d ph p) d =
      some { doc with disagreements := doc.disagreements ++ [(ph, p)] } := by
  simp [append_disagreement, h]

theorem disagreements_append_review (s : Store) (d ty : String) (p : PyObj) (k : String) :
    ((append_review s d ty p) k).map Doc.disagreements = (s k).map Doc.disagreements := by
  unfold append_review
  cases h : s d with
  | none => rfl
  | some doc =>
    by_cases hk : k = d
    · subst hk; simp [h]
    · simp [hk]

theorem reviews_append_disagreement (s : Store) (d ph : String) (p : PyObj) (k : String) :
    ((append_disagreement s d ph p) k).map Doc.reviews = (s k).map Doc.reviews := by
  unfold append_disagreement
  cases h : s d with
  | none => rfl
  | some doc =>
    by_cases hk : k = d
    · subst hk; simp [h]
    · simp [hk]

theorem hasReview_append_review {s : Store} {k : String} {x : String × PyObj}
    (h : hasReview s k x) (d ty : String) (p : PyObj) :
    hasReview (append_review s d ty p) k x := by
  obtain ⟨doc, hdoc, hx⟩ := h
  unfold hasReview append_review
  cases hd : s d with
  | none => exact ⟨doc, hdoc, hx⟩
  | some doc0 =>
    by_cases hk : k = d
    · subst hk
      rw [hdoc] at hd
      injection hd with hd
      subst hd
      exact ⟨{ doc with reviews := doc.reviews ++ [(ty, p)] }, by simp,
        List.mem_append_left _ hx⟩
    · exact ⟨doc, by simp [hk, hdoc], hx⟩

theorem hasReview_append_disagreement {s : Store} {k : String} {x : String × PyObj}
    (h : hasReview s k x) (d ph : String) (p : PyObj) :
    hasReview (append_disagreement s d ph p) k x := by
  obtain ⟨doc, hdoc, hx⟩ := h
  unfold hasReview append_disagreement
  cases hd : s d with
  | none => exact ⟨doc, hdoc, hx⟩
  | some doc0 =>
    by_cases hk : k = d
    · subst hk
      rw [hdoc] at hd
      injection hd with hd
      subst hd
      exact ⟨{ doc with disagreements := doc.disagreements ++ [(ph, p)] }, by simp, hx⟩
    · exact ⟨doc, by simp [hk, hdoc], hx⟩

theorem hasReview_self {s : Store} {d : String} {doc : Doc} (h : s d = some doc)
    (ty : String) (p : PyObj) : hasReview (append_review s d ty p) d (ty, p) :=
  ⟨_, append_review_at h ty p, by simp⟩

theorem hasReview_qa_reviews_phase {s : Store} {k : String} {x : String × PyObj}
    (h : hasReview s k x) (doc_id : Option String) (bias comp sec arb : PyObj) :
    hasReview (qa_reviews_phase s doc_id bias comp sec arb) k x := by
  unfold qa_reviews_phase
  cases doc_id with
  | none => exact h
  | some d =>
    have h3 := hasReview_append_review (hasReview_append_review
      (hasReview_append_review h d "bias_qa" bias) d "completeness_qa" comp)
      d "security_qa" sec
    by_cases hc : (bias.verdict = some "pass" ∧ comp.verdict = some "fail") ∨
        (bias.verdict = some "fail" ∧ comp.verdict = some "pass")
    · simpa [hc] using hasReview_append_disagreement h3 d "qa_review" arb
    · simpa [hc] using h3

theorem hasReview_qa_perf_phase {s : Store} {k : String} {x : String × PyObj}
    (h : hasReview s k x) (doc_id : Option String) (perf : PyObj) :
    hasReview (qa_perf_phase s doc_id perf) k x := by
  unfold qa_perf_phase
  cases doc_id with
  | none => exact h
  | some d => exact hasReview_append_review h d "perf_qa" perf

/-! ## Claim C8: summary length bounds -/

/-- C8 counterexample: the empty summary is shorter than 40 characters,
yet `SummaryValidator.validate` rejects it with reason `empty_summary`,
not `too_short`. -/
theorem C8_counterexample :
    ([] : PyStr).length < 40 ∧
    SummaryValidator_validate ("source text".data) [] = (false, some "empty_summary") := by
  constructor
  · decide
  · rfl

/-- C8 (amended): for every summary with non-whitespace content
(`summary.strip()` non-empty), length below 40 is rejected with
`too_short` and length above 4000 is rejected with `too_long`; empty or
whitespace-only summaries are instead rejected with `empty_summary`. -/
theorem C8_length_bounds (raw summary : PyStr) :
    ((pyStrip summary).isEmpty = false → summary.length < 40 →
      SummaryValidator_validate raw summary = (false, some "too_short")) ∧
    ((pyStrip summary).isEmpty = false → 4000 < summary.length →
      SummaryValidator_validate raw summary = (false, some "too_long")) ∧
    ((pyStrip summary).isEmpty = true →
      SummaryValidator_validate raw summary = (false, some "empty_summary")) := by
  refine ⟨fun h1 h2 => ?_, fun h1 h2 => ?_, fun h1 => ?_⟩
  · have hne : summary.isEmpty = false := by
      cases summary with
      | nil => simp [pyStrip] at h1
      | cons c cs => rfl
    simp [SummaryValidator_validate, hne, h1, h2]
  · have hne : summary.isEmpty = false := by
      cases summary with
      | nil => simp [pyStrip] at h1
      | cons c cs => rfl
    have h40 : ¬ summary.length < 40 := by omega
    simp [SummaryValidator_validate, hne, h1, h40, h2]
  · simp [SummaryValidator_validate, h1]

theorem pyStrip_replicate_x (n : Nat) :
    pyStrip (List.replicate n 'x') = List.replicate n 'x' := by
  have hdrop : List.dropWhile pyWs (List.replicate n 'x') = List.replicate n 'x' := by
    cases n with
    | zero => rfl
    | succ m =>
      rw [List.replicate_succ, List.dropWhile_cons]
      simp [pyWs]
  unfold pyStrip
  rw [hdrop, List.reverse_replicate, hdrop, List.reverse_replicate]

/-- C8 witness: the amended bounds evaluated at concrete summaries. -/
theorem C8_length_bounds_witness :
    SummaryValidator_validate ("abc".data) ("tiny".data) = (false, some "too_short") ∧
    SummaryValidator_validate ("abc".data) (List.replicate 4001 'x') =
      (false, some "too_long") :=
  ⟨(C8_length_bounds ("abc".data) ("tiny".data)).1 (by decide) (by decide),
   (C8_length_bounds ("abc".data) (List.replicate 4001 'x')).2.1
     (by rw [pyStrip_replicate_x]; rfl)
     (by rw [List.length_replicate]; omega)⟩

/-! ## Claim C7: whitespace-only extraction aborts ingestion -/

/-- C7: when the extracted raw text strips to nothing, `ingest_document`
raises `ParsingError`, the store is left untouched, and in particular a
document id that had no store entry before the call has none afterwards. -/
theorem C7_whitespace_parsing_error (s : Store) (doc_id : String) (raw_text : PyStr)
    (sections : List PyStr) (summary : PyStr) (entities : List PyStr)
    (bias comp sec arb perf_sum perf_ent : PyObj) (kb_ok : Bool) (kb_err : PyObj)
    (hws : (pyStrip raw_text).isEmpty = true) (h0 : s doc_id = none) :
    ingest_document s doc_id raw_text sections summary entities
        bias comp sec arb perf_sum perf_ent kb_ok kb_err =
      (Except.error IngestErr.parsingError, s) ∧
    (ingest_document s doc_id raw_text sections summary entities
        bias comp sec arb perf_sum perf_ent kb_ok kb_err).2 doc_id = none := by
  constructor
  · simp [ingest_document, hws]
  · simp [ingest_document, hws, h0]

/-- C7 witness: a whitespace-only extraction on an empty store. -/
theorem C7_whitespace_parsing_error_witness :
    ingest_document (fun _ => none) "d1" ("  \n ".data) [] [] [] {} {} {} {} {} {} true {} =
      (Except.error IngestErr.parsingError, fun _ => none) ∧
    (ingest_document (fun _ => none) "d1" ("  \n ".data) [] [] [] {} {} {} {} {} {} true
        {}).2 "d1" = none :=
  C7_whitespace_parsing_error (fun _ => none) "d1" ("  \n ".data) [] [] []
    {} {} {} {} {} {} true {} (by decide) rfl

/-! ## Claim C1: persistence of critic verdicts -/

/-- C1: the code contradicts the claim. During ingestion the critic
verdicts are appended *before* the document row exists (`append_review`
is a silent no-op then), and the final `put_document` write re-creates
the row with `reviews := []` and `disagreements := []` in every case; so
for any initial store, any verdicts and any critic outcomes, the
document that ingestion persists carries no ReviewRecord at all, while
the claim requires the bias/completeness/security/perf verdicts to be
persisted on it. -/
theorem C1_ingest_reviews_lost (s : Store) (doc_id : String) (raw_text : PyStr)
    (sections : List PyStr) (summary : PyStr) (entities : List PyStr)
    (bias comp sec arb perf_sum perf_ent : PyObj) (kb_ok : Bool) (kb_err : PyObj)
    (hok : (pyStrip raw_text).isEmpty = false) :
    (ingest_document s doc_id raw_text sections summary entities
        bias comp sec arb perf_sum perf_ent kb_ok kb_err).1 =
      Except.ok (sections, summary, entities) ∧
    (ingest_document s doc_id raw_text sections summary entities
        bias comp sec arb perf_sum perf_ent kb_ok kb_err).2 doc_id =
      some { raw_text := raw_text, sections := sections, summary := summary,
             entities := entities, reviews := [], disagreements := [] } := by
  constructor
  · simp [ingest_document, hok]
  · simp [ingest_document, hok, put_document]

/-- C1 witness: a fresh ingestion whose critics all return verdicts still
persists a document with an empty `reviews` list. -/
theorem C1_ingest_reviews_lost_witness :
    (ingest_document (fun _ => none) "d1" ("hello world".data) [] ("sum".data) []
        { verdict := some "pass" } { verdict := some "fail" } { verdict := some "pass" }
        {} {} {} true {}).2 "d1" =
      some { raw_text := ("hello world".data), sections := [], summary := ("sum".data),
             entities := [], reviews := [], disagreements := [] } :=
  (C1_ingest_reviews_lost (fun _ => none) "d1" ("hello world".data) [] ("sum".data) []
    { verdict := some "pass" } { verdict := some "fail" } { verdict := some "pass" }
    {} {} {} true {} (by decide)).2

/-! ## Claim C2: disagreement detection -/

/-- An example document row used in concrete evaluations. -/
def exDoc : Doc :=
  { raw_text := "machine learning text".data, sections := [], summary := "s".data,
    entities := [], reviews := [], disagreements := [] }

/-- A one-document example store. -/
def exStore : Store := fun k => if k = "d1" then some exDoc else none

theorem exStore_d1 : exStore "d1" = some exDoc := rfl

/-- Append one disagreement to a key whose row is known. -/
theorem disagreements_append_at {s : Store} {d : String} {l : List (String × PyObj)}
    (h : (s d).map Doc.disagreements = some l) (ph : String) (p : PyObj) :
    ((append_disagreement s d ph p) d).map Doc.disagreements = some (l ++ [(ph, p)]) := by
  obtain ⟨doc3, h3, hd3⟩ := Option.map_eq_some'.mp h
  rw [append_disagreement_at h3]
  simp [hd3]

/-- C2 counterexample: with the document present in the store, a summary
review where the bias verdict is `fail` and the completeness verdict is
`pass` (one `pass`, one `fail`) appends zero DisagreementRecords — the
ingestion-side check only fires in the opposite direction — whereas the
claim requires exactly one. -/
theorem C2_counterexample :
    ((ingest_reviews_phase exStore "d1" { verdict := some "fail" }
        { verdict := some "pass" } {} {} {} {}) "d1").map Doc.disagreements =
      some [] := by
  decide

/-- C2 (amended): in question-answering review, when one of the
bias/completeness verdicts is `pass` and the other `fail`, exactly one
DisagreementRecord tagged `qa_review` is appended, and none when the
verdicts agree; in the ingestion summary review, exactly one record
tagged `summary_review` is appended when the bias verdict is `pass` and
the completeness verdict is `fail`, but none in the symmetric
(bias `fail`, completeness `pass`) case, and none when the verdicts
agree. -/
theorem C2_disagreement_rules (s : Store) (d : String) (doc : Doc)
    (bias comp sec arb perf_sum perf_ent : PyObj) (h : s d = some doc) :
    ((bias.verdict = some "pass" ∧ comp.verdict = some "fail") ∨
       (bias.verdict = some "fail" ∧ comp.verdict = some "pass") →
      ((qa_reviews_phase s (some d) bias comp sec arb) d).map Doc.disagreements =
        some (doc.disagreements ++ [("qa_review", arb)])) ∧
    (bias.verdict = comp.verdict →
      ((qa_reviews_phase s (some d) bias comp sec arb) d).map Doc.disagreements =
        some doc.disagreements) ∧
    (bias.verdict = some "pass" ∧ comp.verdict = some "fail" →
      ((ingest_reviews_phase s d bias comp sec arb perf_sum perf_ent) d).map
          Doc.disagreements =
        some (doc.disagreements ++ [("summary_review", arb)])) ∧
    (bias.verdict = some "fail" ∧ comp.verdict = some "pass" →
      ((ingest_reviews_phase s d bias comp sec arb perf_sum perf_ent) d).map
          Doc.disagreements =
        some doc.disagreements) ∧
    (bias.verdict = comp.verdict →
      ((ingest_reviews_phase s d bias comp sec arb perf_sum perf_ent) d).map
          Doc.disagreements =
        some doc.disagreements) := by
  have h3qa : ∀ k, ((append_review (append_review (append_review s d "bias_qa" bias)
      d "completeness_qa" comp) d "security_qa" sec) k).map Doc.disagreements =
      (s k).map Doc.disagreements := by
    intro k
    rw [disagreements_append_review, disagreements_append_review,
      disagreements_append_review]
  have h3ing : ∀ k, ((append_review (append_review (append_review s d "bias_summary" bias)
      d "completeness_summary" comp) d "security_summary" sec) k).map Doc.disagreements =
      (s k).map Doc.disagreements := by
    intro k
    rw [disagreements_append_review, disagreements_append_review,
      disagreements_append_review]
  have hbase : (s d).map Doc.disagreements = some doc.disagreements := by rw [h]; rfl
  refine ⟨fun hc => ?_, fun hagree => ?_, fun hc => ?_, fun hc => ?_, fun hagree => ?_⟩
  · simp only [qa_reviews_phase]
    rw [if_pos hc]
    exact disagreements_append_at ((h3qa d).trans hbase) "qa_review" arb
  · have hnc : ¬ ((bias.verdict = some "pass" ∧ comp.verdict = some "fail") ∨
        (bias.verdict = some "fail" ∧ comp.verdict = some "pass")) := by
      rintro (⟨h1, h2⟩ | ⟨h1, h2⟩) <;> rw [h1, h2] at hagree <;> simp at hagree
    simp only [qa_reviews_phase]
    rw [if_neg hnc]
    exact (h3qa d).trans hbase
  · simp only [ingest_reviews_phase]
    rw [if_pos hc]
    rw [disagreements_append_review, disagreements_append_review]
    exact disagreements_append_at ((h3ing d).trans hbase) "summary_review" arb
  · have hnc : ¬ (bias.verdict = some "pass" ∧ comp.verdict = some "fail") := by
      rintro ⟨h1, h2⟩
      rw [hc.1] at h1
      simp at h1
    simp only [ingest_reviews_phase]
    rw [if_neg hnc]
    rw [disagreements_append_review, disagreements_append_review]
    exact (h3ing d).trans hbase
  · have hnc : ¬ (bias.verdict = some "pass" ∧ comp.verdict = some "fail") := by
      rintro ⟨h1, h2⟩
      rw [h1, h2] at hagree
      simp at hagree
    simp only [ingest_reviews_phase]
    rw [if_neg hnc]
    rw [disagreements_append_review, disagreements_append_review]
    exact (h3ing d).trans hbase

/-- C2 witness: a QA review with bias `pass` / completeness `fail`
appends exactly the one `qa_review` disagreement, and an agreeing QA
review appends none. -/
theorem C2_disagreement_rules_witness :
    ((qa_reviews_phase exStore (some "d1") { verdict := some "pass" }
        { verdict := some "fail" } {} { raw := "arb" }) "d1").map Doc.disagreements =
      some [("qa_review", { raw := "arb" })] ∧
    ((qa_reviews_phase exStore (some "d1") { verdict := some "pass" }
        { verdict := some "pass" } {} { raw := "arb" }) "d1").map Doc.disagreements =
      some [] :=
  ⟨(C2_disagreement_rules exStore "d1" exDoc { verdict := some "pass" }
      { verdict := some "fail" } {} { raw := "arb" } {} {} exStore_d1).1
      (Or.inl ⟨rfl, rfl⟩),
   (C2_disagreement_rules exStore "d1" exDoc { verdict := some "pass" }
      { verdict := some "pass" } {} { raw := "arb" } {} {} exStore_d1).2.1 rfl⟩

/-! ## Claim C3: apply_user_edit validation + rollback -/

/-- C3: `apply_user_edit` (i) on a summary-validation rejection raises
`ValidationError` and returns the store exactly as it was (so the stored
summary and entities are unchanged); (ii) likewise on an
entities-validation rejection; (iii) when validation accepts and the
write succeeds, both fields are written through `update_summary`; (iv)
when the write itself fails after acceptance, rollback with the snapshot
restores the document's prior summary and entities before the error
propagates. -/
theorem C3_apply_user_edit (s : Store) (doc_id : String) (summary : PyStr)
    (entities : Option (List PyStr)) (write_fails : Bool) (fail_state : Store) :
    (summary.isEmpty = false →
      (SummaryValidator_validate (stored_raw_text s doc_id) summary).1 = false →
      apply_user_edit s doc_id summary entities write_fails fail_state =
        (Except.error (EditErr.validationError
          (SummaryValidator_validate (stored_raw_text s doc_id) summary).2), s)) ∧
    ((summary.isEmpty = true ∨
        (SummaryValidator_validate (stored_raw_text s doc_id) summary).1 = true) →
      entities.isSome = true →
      (EntityValidator_validate (stored_raw_text s doc_id) entities).1 = false →
      apply_user_edit s doc_id summary entities write_fails fail_state =
        (Except.error (EditErr.validationError
          (EntityValidator_validate (stored_raw_text s doc_id) entities).2), s)) ∧
    ((summary.isEmpty = true ∨
        (SummaryValidator_validate (stored_raw_text s doc_id) summary).1 = true) →
      (entities = none ∨
        (EntityValidator_validate (stored_raw_text s doc_id) entities).1 = true) →
      write_fails = false →
      apply_user_edit s doc_id summary entities write_fails fail_state =
        (Except.ok (), update_summary s doc_id summary entities)) ∧
    (∀ doc doc2,
      (summary.isEmpty = true ∨
        (SummaryValidator_validate (stored_raw_text s doc_id) summary).1 = true) →
      (entities = none ∨
        (EntityValidator_validate (stored_raw_text s doc_id) entities).1 = true) →
      write_fails = true →
      s doc_id = some doc → fail_state doc_id = some doc2 →
      (apply_user_edit s doc_id summary entities write_fails fail_state).1 =
        Except.error EditErr.writeError ∧
      (apply_user_edit s doc_id summary entities write_fails fail_state).2 doc_id =
        some { doc2 with summary := doc.summary, entities := doc.entities }) := by
  have negS : (summary.isEmpty = true ∨
      (SummaryValidator_validate (stored_raw_text s doc_id) summary).1 = true) →
      ¬ (¬ summary.isEmpty ∧
        (SummaryValidator_validate (stored_raw_text s doc_id) summary).1 = false) := by
    rintro (h | h) ⟨h1, h2⟩
    · exact h1 h
    · rw [h] at h2; cases h2
  have negE : (entities = none ∨
      (EntityValidator_validate (stored_raw_text s doc_id) entities).1 = true) →
      ¬ (entities.isSome = true ∧
        (EntityValidator_validate (stored_raw_text s doc_id) entities).1 = false) := by
    rintro (h | h) ⟨h1, h2⟩
    · rw [h] at h1; cases h1
    · rw [h] at h2; cases h2
  refine ⟨fun h1 h2 => ?_, fun hs he h4 => ?_, fun hs he hwf => ?_,
    fun doc doc2 hs he hwf hdoc hdoc2 => ?_⟩
  · have hc1 : ¬ summary.isEmpty ∧
        (SummaryValidator_validate (stored_raw_text s doc_id) summary).1 = false :=
      ⟨by simp [h1], h2⟩
    simp only [apply_user_edit]
    rw [if_pos hc1]
  · simp only [apply_user_edit]
    rw [if_neg (negS hs), if_pos ⟨he, h4⟩]
  · simp only [apply_user_edit]
    rw [if_neg (negS hs), if_neg (negE he), if_neg (by simp [hwf])]
  · simp only [apply_user_edit]
    rw [if_neg (negS hs), if_neg (negE he), if_pos (by simp [hwf])]
    refine ⟨rfl, ?_⟩
    simp only [take_summary_snapshot, hdoc, rollback_summary, update_summary,
      get_document, hdoc2]
    simp

/-- C3 witness: a rejected edit (too-short summary) leaves the example
store untouched, and a failed write after an accepted edit is rolled
back to the snapshotted summary and entities. -/
theorem C3_apply_user_edit_witness :
    apply_user_edit exStore "d1" ("bad".data) none false exStore =
      (Except.error (EditErr.validationError (some "too_short")), exStore) ∧
    ((apply_user_edit exStore "d1"
        ("machine learning text is described in this document at length".data)
        none true (fun k => if k = "d1" then
          some { exDoc with summary := ("corrupt".data) } else none)).1 =
      Except.error EditErr.writeError ∧
     (apply_user_edit exStore "d1"
        ("machine learning text is described in this document at length".data)
        none true (fun k => if k = "d1" then
          some { exDoc with summary := ("corrupt".data) } else none)).2 "d1" =
      some { { exDoc with summary := ("corrupt".data) } with
             summary := exDoc.summary, entities := exDoc.entities }) :=
  ⟨(C3_apply_user_edit exStore "d1" ("bad".data) none false exStore).1 rfl (by decide),
   (C3_apply_user_edit exStore "d1"
      ("machine learning text is described in this document at length".data)
      none true (fun k => if k = "d1" then
        some { exDoc with summary := ("corrupt".data) } else none)).2.2.2
      exDoc { exDoc with summary := ("corrupt".data) }
      (Or.inr (by decide)) (Or.inl rfl) rfl exStore_d1 rfl⟩

/-! ## Claim C6: QA validation fallback -/

/-- C6: when the answer validator rejects the generated answer,
`answer_question` returns the "don't know" sentinel together with the
original contexts and does not raise, and when a document id naming a
stored document is present the rejection reason is recorded as a
`qa_validator_note` review on that document; when the completion call
itself fails, `QAError` is raised. -/
theorem C6_qa_validation_fallback (s : Store) (doc_id : Option String)
    (contexts : List PyStr) (ans : PyStr) (e : String) (bias comp sec arb perf : PyObj) :
    ((QAValidator_validate ans contexts).1 = false →
      (answer_question s doc_id contexts (Except.ok ans) bias comp sec arb perf).1 =
        Except.ok (dontKnowAnswer, contexts) ∧
      (∀ d doc, doc_id = some d → s d = some doc →
        hasReview
          (answer_question s doc_id contexts (Except.ok ans) bias comp sec arb perf).2 d
          ("qa_validator_note", { reason := (QAValidator_validate ans contexts).2 }))) ∧
    (answer_question s doc_id contexts (Except.error e) bias comp sec arb perf =
      (Except.error (QAErr.qaError e), s)) := by
  constructor
  · intro hv
    have hrun : QAWorkflow_run contexts (Except.ok ans) =
        QAOutcome.validationError (QAValidator_validate ans contexts).2 := by
      cases hval : QAValidator_validate ans contexts with
      | mk b r =>
        rw [hval] at hv
        subst hv
        simp [QAWorkflow_run, hval]
    constructor
    · simp [answer_question, hrun]
    · intro d doc hd hdoc
      subst hd
      have hbase : hasReview (append_review s d "qa_validator_note"
          { reason := (QAValidator_validate ans contexts).2 }) d
          ("qa_validator_note", { reason := (QAValidator_validate ans contexts).2 }) :=
        hasReview_self hdoc _ _
      have := hasReview_qa_perf_phase
        (hasReview_qa_reviews_phase hbase (some d) bias comp sec arb) (some d) perf
      simpa [answer_question, hrun] using this
  · rfl

/-- C6 witness: an ungrounded answer over the example store falls back to
the sentinel, records the reason, and a failing completion call raises
`QAError`. -/
theorem C6_qa_validation_fallback_witness :
    (answer_question exStore (some "d1") [("alpha beta".data)]
        (Except.ok ("zzz qqq".data)) {} {} {} {} {}).1 =
      Except.ok (dontKnowAnswer, [("alpha beta".data)]) ∧
    hasReview (answer_question exStore (some "d1") [("alpha beta".data)]
        (Except.ok ("zzz qqq".data)) {} {} {} {} {}).2 "d1"
      ("qa_validator_note", { reason := some "ungrounded_answer" }) ∧
    answer_question exStore (some "d1") [("alpha beta".data)] (Except.error "boom")
        {} {} {} {} {} = (Except.error (QAErr.qaError "boom"), exStore) := by
  have h := C6_qa_validation_fallback exStore (some "d1") [("alpha beta".data)]
    ("zzz qqq".data) "boom" {} {} {} {} {}
  exact ⟨(h.1 (by decide)).1, (h.1 (by decide)).2 "d1" exDoc rfl exStore_d1, h.2⟩

/-! ## Claims C9 and C10: kb_search ranking -/

/-- The strict order realised by the stable descending sort of
`enumerate(scores)`: strictly higher score first, ties broken by the
smaller (earlier-indexed) position. -/
def rankedBefore (a b : Nat × ℚ) : Prop :=
  b.2 < a.2 ∨ (a.2 = b.2 ∧ a.1 < b.1)

theorem mem_insertRanked {z x : Nat × ℚ} {l : List (Nat × ℚ)} :
    z ∈ insertRanked x l ↔ z = x ∨ z ∈ l := by
  induction l with
  | nil => simp [insertRanked]
  | cons y ys ih =>
    by_cases h : y.2 < x.2
    · rw [insertRanked, if_pos h]
      simp
    · rw [insertRanked, if_neg h]
      simp [ih]
      tauto

theorem insertRanked_pairwise {x : Nat × ℚ} {l : List (Nat × ℚ)}
    (hl : l.Pairwise rankedBefore) (hidx : ∀ y ∈ l, y.1 < x.1) :
    (insertRanked x l).Pairwise rankedBefore := by
  induction l with
  | nil => simp [insertRanked, rankedBefore]
  | cons y ys ih =>
    rcases List.pairwise_cons.mp hl with ⟨hy, hys⟩
    by_cases h : y.2 < x.2
    · rw [insertRanked, if_pos h]
      refine List.pairwise_cons.mpr ⟨?_, hl⟩
      intro z hz
      rcases List.mem_cons.mp hz with rfl | hz'
      · exact Or.inl h
      · rcases hy z hz' with hlt | ⟨heq, _⟩
        · exact Or.inl (hlt.trans h)
        · exact Or.inl (heq ▸ h)
    · rw [insertRanked, if_neg h]
      refine List.pairwise_cons.mpr ⟨?_, ih hys (fun w hw => hidx w (List.mem_cons_of_mem _ hw))⟩
      intro z hz
      rcases mem_insertRanked.mp hz with rfl | hz'
      · rcases lt_or_eq_of_le (le_of_not_lt h) with hlt | heq
        · exact Or.inl hlt
        · exact Or.inr ⟨heq.symm, hidx y (List.mem_cons_self _ _)⟩
      · exact hy z hz'

theorem foldl_insertRanked_pairwise (l : List ℚ) (n : Nat) (acc : List (Nat × ℚ))
    (hacc : acc.Pairwise rankedBefore) (hidx : ∀ y ∈ acc, y.1 < n) :
    ((enumFromQ n l).foldl (fun a x => insertRanked x a) acc).Pairwise rankedBefore := by
  induction l generalizing n acc with
  | nil => simpa [enumFromQ]
  | cons q qs ih =>
    simp only [enumFromQ, List.foldl_cons]
    refine ih (n + 1) (insertRanked (n, q) acc) (insertRanked_pairwise hacc hidx) ?_
    intro y hy
    rcases mem_insertRanked.mp hy with rfl | hy'
    · exact Nat.lt_succ_self n
    · exact Nat.lt_succ_of_lt (hidx y hy')

theorem rankDesc_enum_pairwise (scores : List ℚ) :
    (rankDesc (enumFromQ 0 scores)).Pairwise rankedBefore :=
  foldl_insertRanked_pairwise scores 0 [] List.Pairwise.nil (by simp)

/-- C9: the ranked list returned by `kb_search` is ordered by score
descending with ties broken by insertion order — among equal scores the
earlier-indexed chunk comes first — so the result order is a function of
the index state alone. -/
theorem C9_tie_break (scores : List ℚ) (top_k : Int) :
    (kb_search_ranked scores top_k).Pairwise rankedBefore := by
  unfold kb_search_ranked
  exact List.Pairwise.sublist (List.take_sublist _ _) (rankDesc_enum_pairwise scores)

theorem length_insertRanked (x : Nat × ℚ) (l : List (Nat × ℚ)) :
    (insertRanked x l).length = l.length + 1 := by
  induction l with
  | nil => rfl
  | cons y ys ih =>
    by_cases h : y.2 < x.2
    · rw [insertRanked, if_pos h]
      simp
    · rw [insertRanked, if_neg h]
      simp [ih]

theorem length_foldl_insertRanked (el acc : List (Nat × ℚ)) :
    (el.foldl (fun a x => insertRanked x a) acc).length = acc.length + el.length := by
  induction el generalizing acc with
  | nil => rfl
  | cons x xs ih =>
    simp only [List.foldl_cons]
    rw [ih, length_insertRanked, List.length_cons]
    omega

theorem length_enumFromQ (n : Nat) (l : List ℚ) : (enumFromQ n l).length = l.length := by
  induction l generalizing n with
  | nil => rfl
  | cons q qs ih => simp [enumFromQ, ih]

theorem mem_foldl_insertRanked {z : Nat × ℚ} (el acc : List (Nat × ℚ)) :
    z ∈ el.foldl (fun a x => insertRanked x a) acc ↔ z ∈ acc ∨ z ∈ el := by
  induction el generalizing acc with
  | nil => simp
  | cons x xs ih =>
    simp only [List.foldl_cons, ih, mem_insertRanked]
    simp
    tauto

/-- C10: a `kb_search` call with `top_k ≤ 0` over a non-empty corpus
returns exactly one entry, and that entry's score is maximal among all
indexed chunks. -/
theorem C10_nonpositive_topk (scores : List ℚ) (top_k : Int) (hk : top_k ≤ 0)
    (hs : scores ≠ []) :
    (kb_search_ranked scores top_k).length = 1 ∧
    ∀ x ∈ kb_search_ranked scores top_k, ∀ y ∈ enumFromQ 0 scores, y.2 ≤ x.2 := by
  have hmax : max 1 top_k = 1 := max_eq_left (by omega)
  have hlen : (rankDesc (enumFromQ 0 scores)).length = scores.length := by
    unfold rankDesc
    rw [length_foldl_insertRanked, length_enumFromQ]
    simp
  have hpos : 0 < scores.length := List.length_pos.mpr hs
  constructor
  · unfold kb_search_ranked
    rw [hmax]
    rw [List.length_take, hlen]
    omega
  · intro xr hxr y hy
    unfold kb_search_ranked at hxr
    rw [hmax] at hxr
    rcases hzl : rankDesc (enumFromQ 0 scores) with _ | ⟨z, rest⟩
    · rw [hzl] at hlen
      simp at hlen
      omega
    · rw [hzl] at hxr
      have hxz : xr = z := by
        simpa [List.take] using hxr
      subst hxz
      have hps := rankDesc_enum_pairwise scores
      rw [hzl] at hps
      have hmem : y ∈ xr :: rest := by
        rw [← hzl]
        exact (mem_foldl_insertRanked _ _).mpr (Or.inr hy)
      rcases List.mem_cons.mp hmem with rfl | hyr
      · exact le_refl _
      · rcases (List.pairwise_cons.mp hps).1 y hyr with hlt | ⟨heq, _⟩
        · exact le_of_lt hlt
        · exact le_of_eq heq.symm

/-- C10 witness: two equal-scored chunks, `top_k = 0`: one result, with
maximal score. -/
theorem C10_nonpositive_topk_witness :
    (kb_search_ranked [(1 : ℚ), 1] 0).length = 1 ∧
    ∀ x ∈ kb_search_ranked [(1 : ℚ), 1] 0, ∀ y ∈ enumFromQ 0 [(1 : ℚ), 1], y.2 ≤ x.2 :=
  C10_nonpositive_topk [(1 : ℚ), 1] 0 (by decide) (by simp)

/-! ## Claim C5: chunk length bound -/

theorem chunkFold_bound (max_chars : Nat) (allP : List PyStr) :
    ∀ (ps : List PyStr) (chunks : List PyStr) (buf : PyStr),
      (∀ p ∈ ps, p ∈ allP) →
      (∀ c ∈ chunks, c.length ≤ max_chars ∨ c ∈ allP) →
      (buf.isEmpty = true ∨ buf.length ≤ max_chars ∨ buf ∈ allP) →
      ∀ c ∈ finishChunks (chunkFold max_chars ps (chunks, buf)),
        c.length ≤ max_chars ∨ c ∈ allP := by
  intro ps
  induction ps with
  | nil =>
    intro chunks buf _ hchunks hbuf c hc
    simp only [chunkFold, finishChunks] at hc
    by_cases hb : buf.isEmpty
    · rw [if_pos hb] at hc
      exact hchunks c hc
    · rw [if_neg hb] at hc
      rcases List.mem_append.mp hc with h | h
      · exact hchunks c h
      · rcases List.mem_singleton.mp h with rfl
        rcases hbuf with h1 | h2
        · exact absurd h1 hb
        · exact h2
  | cons p ps ih =>
    intro chunks buf hps hchunks hbuf c hc
    simp only [chunkFold] at hc
    by_cases hfit : buf.length + p.length + 2 ≤ max_chars
    · rw [if_pos hfit] at hc
      refine ih _ _ (fun q hq => hps q (List.mem_cons_of_mem _ hq)) hchunks ?_ c hc
      by_cases hb : buf.isEmpty
      · rw [if_pos hb]
        exact Or.inr (Or.inr (hps p (List.mem_cons_self _ _)))
      · rw [if_neg hb]
        refine Or.inr (Or.inl ?_)
        simp only [List.length_append, nlnl]
        simp at hfit ⊢
        omega
    · rw [if_neg hfit] at hc
      refine ih _ _ (fun q hq => hps q (List.mem_cons_of_mem _ hq)) ?_
        (Or.inr (Or.inr (hps p (List.mem_cons_self _ _)))) c hc
      by_cases hb : buf.isEmpty
      · rw [if_pos hb]
        exact hchunks
      · rw [if_neg hb]
        intro c' hc'
        rcases List.mem_append.mp hc' with h | h
        · exact hchunks c' h
        · rcases List.mem_singleton.mp h with rfl
          rcases hbuf with h1 | h2
          · exact absurd h1 hb
          · exact h2

/-- C5 counterexample: a single ten-character paragraph with
`max_chars = 5` is returned as one chunk of length 10 > 5. -/
theorem C5_counterexample :
    ("abcdefghij".data) ∈ split_into_chunks ("abcdefghij".data) 5 ∧
    ¬ ("abcdefghij".data).length ≤ 5 := by
  decide

/-- C5 (amended): every chunk produced by `split_into_chunks` either has
length at most `max_chars` or is one of the stripped paragraphs of the
text kept whole (an over-long paragraph is never split); only merged
chunks are bounded. -/
theorem C5_chunk_bound (text : PyStr) (max_chars : Nat) :
    ∀ c ∈ split_into_chunks text max_chars,
      c.length ≤ max_chars ∨ c ∈ parasOf text := by
  intro c hc
  unfold split_into_chunks at hc
  exact chunkFold_bound max_chars (parasOf text) (parasOf text) [] []
    (fun p hp => hp) (by simp) (Or.inl rfl) c hc

/-- C5 witness: the amended bound at a concrete text. -/
theorem C5_chunk_bound_witness :
    ("hello".data).length ≤ 1500 ∨ ("hello".data) ∈ parasOf ("hello".data) :=
  C5_chunk_bound ("hello".data) 1500 ("hello".data) (by decide)

/-! ## Claim C4: chunk round-trip -/

/-- No two consecutive newlines occur in `p`. -/
def noBlankRun : PyStr → Bool
  | [] => true
  | [_] => true
  | a :: b :: rest => !(a == '\n' && b == '\n') && noBlankRun (b :: rest)

/-- A paragraph in chunking normal form: non-empty, equal to its own
strip, and containing no blank-line separator. -/
def GoodPara (p : PyStr) : Prop :=
  p ≠ [] ∧ pyStrip p = p ∧ noBlankRun p = true

instance (p : PyStr) : Decidable (GoodPara p) := by
  unfold GoodPara
  infer_instance

theorem dropWhile_eq_self_of_pyStrip {p : PyStr} (h : pyStrip p = p) :
    p.dropWhile pyWs = p := by
  have hsub : List.Sublist (p.dropWhile pyWs) p := (List.dropWhile_suffix pyWs).sublist
  refine List.Sublist.eq_of_length hsub ?_
  have h1 : (pyStrip p).length ≤ (p.dropWhile pyWs).length := by
    unfold pyStrip
    rw [List.length_reverse]
    calc ((p.dropWhile pyWs).reverse.dropWhile pyWs).length
        ≤ (p.dropWhile pyWs).reverse.length :=
          List.IsSuffix.length_le (List.dropWhile_suffix _)
      _ = (p.dropWhile pyWs).length := List.length_reverse _
  have h2 : (p.dropWhile pyWs).length ≤ p.length :=
    List.IsSuffix.length_le (List.dropWhile_suffix _)
  rw [h] at h1
  omega

theorem dropWhile_reverse_eq_self_of_pyStrip {p : PyStr} (h : pyStrip p = p) :
    p.reverse.dropWhile pyWs = p.reverse := by
  have hd := dropWhile_eq_self_of_pyStrip h
  have hh : pyStrip p = (p.reverse.dropWhile pyWs).reverse := by
    unfold pyStrip
    rw [hd]
  rw [h] at hh
  calc p.reverse.dropWhile pyWs
      = ((p.reverse.dropWhile pyWs).reverse).reverse := (List.reverse_reverse _).symm
    _ = p.reverse := by rw [← hh]

theorem head_not_ws_of_dropWhile {q : PyStr} (h : q.dropWhile pyWs = q) :
    ∀ c ∈ q.head?, pyWs c = false := by
  intro c hc
  cases q with
  | nil => simp at hc
  | cons a cs =>
    simp at hc
    subst hc
    rw [List.dropWhile_cons] at h
    by_cases hw : pyWs a = true
    · rw [if_pos hw] at h
      have hlen := congrArg List.length h
      have hle : (cs.dropWhile pyWs).length ≤ cs.length :=
        List.IsSuffix.length_le (List.dropWhile_suffix _)
      simp at hlen
      omega
    · simpa using hw

theorem head_not_ws_of_pyStrip {p : PyStr} (h : pyStrip p = p) :
    ∀ c ∈ p.head?, pyWs c = false :=
  head_not_ws_of_dropWhile (dropWhile_eq_self_of_pyStrip h)

theorem getLast_not_ws_of_pyStrip {p : PyStr} (h : pyStrip p = p) :
    ∀ c ∈ p.getLast?, pyWs c = false := by
  intro c hc
  refine head_not_ws_of_dropWhile (dropWhile_reverse_eq_self_of_pyStrip h) c ?_
  rw [List.head?_reverse]
  exact hc

theorem splitParasAux_no_sep :
    ∀ (p : PyStr), noBlankRun p = true → ∀ acc,
      splitParasAux p acc = [acc.reverse ++ p] := by
  intro p
  induction p with
  | nil => intro _ acc; simp [splitParasAux_nil]
  | cons a p' ih =>
    intro hp acc
    rw [splitParasAux_cons]
    have hp' : noBlankRun p' = true := by
      cases p' with
      | nil => rfl
      | cons b p'' =>
        simp only [noBlankRun, Bool.and_eq_true] at hp
        exact hp.2
    have hcond : ¬ (a = '\n' ∧ p'.head? = some '\n') := by
      cases p' with
      | nil => rintro ⟨_, h⟩; simp at h
      | cons b p'' =>
        rintro ⟨ha, hb⟩
        simp at hb
        subst ha
        subst hb
        simp [noBlankRun] at hp
    rw [if_neg hcond, ih hp' (a :: acc)]
    simp

theorem splitParasAux_sep :
    ∀ (p : PyStr), noBlankRun p = true → (∀ c ∈ p.getLast?, c ≠ '\n') →
      ∀ (r : PyStr), (∀ c ∈ r.head?, c ≠ '\n') → ∀ acc,
      splitParasAux (p ++ '\n' :: '\n' :: r) acc =
        (acc.reverse ++ p) :: splitParasAux r [] := by
  intro p
  induction p with
  | nil =>
    intro _ _ r hr acc
    simp only [List.nil_append]
    rw [splitParasAux_cons, if_pos ⟨rfl, rfl⟩]
    have hdrop : ('\n' :: r).dropWhile (fun d => d == '\n') = r := by
      rw [List.dropWhile_cons, if_pos (by simp)]
      cases r with
      | nil => rfl
      | cons c' r' =>
        have hcr : c' ≠ '\n' := hr c' (by simp)
        rw [List.dropWhile_cons, if_neg (by simp [hcr])]
    rw [hdrop]
    simp
  | cons a p' ih =>
    intro hp hl r hr acc
    rw [List.cons_append, splitParasAux_cons]
    have hp' : noBlankRun p' = true := by
      cases p' with
      | nil => rfl
      | cons b p'' =>
        simp only [noBlankRun, Bool.and_eq_true] at hp
        exact hp.2
    have hl' : ∀ c ∈ p'.getLast?, c ≠ '\n' := by
      cases p' with
      | nil => intro c hc; simp at hc
      | cons b p'' =>
        intro c hc
        apply hl
        rw [List.getLast?_cons_cons]
        exact hc
    have hcond : ¬ (a = '\n' ∧ (p' ++ '\n' :: '\n' :: r).head? = some '\n') := by
      cases p' with
      | nil =>
        rintro ⟨ha, _⟩
        exact (hl a (by simp)) ha
      | cons b p'' =>
        rintro ⟨ha, hb⟩
        simp at hb
        subst ha
        subst hb
        simp [noBlankRun] at hp
    rw [if_neg hcond, ih hp' hl' r hr (a :: acc)]
    simp

theorem joinSep_cons (x : PyStr) {L : List PyStr} (hL : L ≠ []) :
    joinSep (x :: L) = x ++ nlnl ++ joinSep L := by
  cases L with
  | nil => exact absurd rfl hL
  | cons y ys => rfl

theorem joinSep_head? (q : PyStr) (qs : List PyStr) (hq : q ≠ []) :
    (joinSep (q :: qs)).head? = q.head? := by
  cases qs with
  | nil => rfl
  | cons y ys =>
    rw [joinSep_cons q (by simp)]
    cases q with
    | nil => exact absurd rfl hq
    | cons c cs => rfl

theorem splitParas_joinSep :
    ∀ (ps : List PyStr), ps ≠ [] → (∀ p ∈ ps, GoodPara p) →
      splitParas (joinSep ps) = ps := by
  intro ps
  induction ps with
  | nil => intro h _; exact absurd rfl h
  | cons p ps ih =>
    intro _ hgood
    obtain ⟨hpne, hpstrip, hprun⟩ := hgood p (List.mem_cons_self _ _)
    cases ps with
    | nil =>
      show splitParasAux p [] = [p]
      rw [splitParasAux_no_sep p hprun []]
      simp
    | cons q qs =>
      have hq := hgood q (by simp)
      have hlast : ∀ c ∈ p.getLast?, c ≠ '\n' := by
        intro c hc heq
        have hwc := getLast_not_ws_of_pyStrip hpstrip c hc
        rw [heq] at hwc
        simp [pyWs] at hwc
      have hhead : ∀ c ∈ (joinSep (q :: qs)).head?, c ≠ '\n' := by
        intro c hc heq
        rw [joinSep_head? q qs hq.1] at hc
        have hwc := head_not_ws_of_pyStrip hq.2.1 c hc
        rw [heq] at hwc
        simp [pyWs] at hwc
      have hjoin : joinSep (p :: q :: qs) = p ++ '\n' :: '\n' :: joinSep (q :: qs) := by
        rw [joinSep_cons p (by simp)]
        simp [nlnl]
      show splitParasAux (joinSep (p :: q :: qs)) [] = p :: q :: qs
      rw [hjoin, splitParasAux_sep p hprun hlast (joinSep (q :: qs)) hhead []]
      show ((List.reverse [] ++ p) :: splitParas (joinSep (q :: qs))) = p :: q :: qs
      rw [ih (by simp) (fun x hx => hgood x (List.mem_cons_of_mem _ hx))]
      simp

theorem map_pyStrip_eq_self :
    ∀ (ps : List PyStr), (∀ p ∈ ps, pyStrip p = p) → ps.map pyStrip = ps := by
  intro ps
  induction ps with
  | nil => intro _; rfl
  | cons p ps ih =>
    intro h
    simp only [List.map_cons]
    rw [h p (by simp), ih (fun x hx => h x (by simp [hx]))]

theorem parasOf_joinSep (ps : List PyStr) (hne : ps ≠ [])
    (hgood : ∀ p ∈ ps, GoodPara p) : parasOf (joinSep ps) = ps := by
  unfold parasOf
  rw [show splitParas (joinSep ps) = ps from splitParas_joinSep ps hne hgood]
  rw [map_pyStrip_eq_self ps (fun p hp => (hgood p hp).2.1)]
  rw [List.filter_eq_self.mpr]
  intro a ha
  simp [List.isEmpty_iff]
  exact (hgood a ha).1

theorem joinSep_mid_merge :
    ∀ (xs : List PyStr) (a b : PyStr) (ys : List PyStr),
      joinSep (xs ++ (a ++ nlnl ++ b) :: ys) = joinSep (xs ++ a :: b :: ys) := by
  intro xs
  induction xs with
  | nil =>
    intro a b ys
    cases ys with
    | nil => rfl
    | cons y ys' =>
      simp only [List.nil_append]
      rw [joinSep_cons _ (by simp), joinSep_cons a (by simp), joinSep_cons b (by simp)]
      simp [List.append_assoc]
  | cons x xs' ih =>
    intro a b ys
    simp only [List.cons_append]
    rw [joinSep_cons x (by simp), joinSep_cons x (by simp), ih]

theorem chunkFold_join (max_chars : Nat) :
    ∀ (ps : List PyStr) (chunks : List PyStr) (buf : PyStr),
      (∀ p ∈ ps, p ≠ []) →
      joinSep (finishChunks (chunkFold max_chars ps (chunks, buf))) =
        joinSep (finishChunks (chunks, buf) ++ ps) := by
  intro ps
  induction ps with
  | nil => intro chunks buf _; simp [chunkFold]
  | cons p ps ih =>
    intro chunks buf hps
    have hpne : p ≠ [] := hps p (by simp)
    have hpe : p.isEmpty = false := by simpa [List.isEmpty_iff] using hpne
    have hpsne : ∀ q ∈ ps, q ≠ [] := fun q hq => hps q (by simp [hq])
    simp only [chunkFold]
    by_cases hfit : buf.length + p.length + 2 ≤ max_chars
    · rw [if_pos hfit]
      by_cases hb : buf.isEmpty
      · rw [if_pos hb]
        rw [ih chunks p hpsne]
        have hfp : finishChunks (chunks, p) = chunks ++ [p] := by
          simp [finishChunks, hpe]
        have hfb : finishChunks (chunks, buf) = chunks := by
          simp [finishChunks, hb]
        rw [hfp, hfb]
        congr 1
        simp
      · rw [if_neg hb]
        rw [ih chunks (buf ++ nlnl ++ p) hpsne]
        have hfp : finishChunks (chunks, buf ++ nlnl ++ p) =
            chunks ++ [buf ++ nlnl ++ p] := by
          simp [finishChunks, nlnl]
        have hfb : finishChunks (chunks, buf) = chunks ++ [buf] := by
          simp only [finishChunks]
          rw [if_neg (by simpa using hb)]
        rw [hfp, hfb]
        calc joinSep ((chunks ++ [buf ++ nlnl ++ p]) ++ ps)
            = joinSep (chunks ++ (buf ++ nlnl ++ p) :: ps) := by
              congr 1
              simp
          _ = joinSep (chunks ++ buf :: p :: ps) := joinSep_mid_merge chunks buf p ps
          _ = joinSep ((chunks ++ [buf]) ++ p :: ps) := by
              congr 1
              simp
    · rw [if_neg hfit]
      rw [ih _ p hpsne]
      have hfp : finishChunks ((if buf.isEmpty then chunks else chunks ++ [buf]), p) =
          (if buf.isEmpty then chunks else chunks ++ [buf]) ++ [p] := by
        simp [finishChunks, hpe]
      rw [hfp]
      congr 1
      by_cases hb : buf.isEmpty
      · rw [if_pos hb]
        simp [finishChunks, hb]
      · rw [if_neg hb]
        simp only [finishChunks]
        rw [if_neg (by simpa using hb)]
        simp

/-- C4 counterexample: the non-empty text `"a\n\n\nb"` reassembles to
`"a\n\nb"` after chunking — the three-newline run is collapsed — so the
round trip does not reproduce the original text. -/
theorem C4_counterexample :
    ('a' :: '\n' :: '\n' :: '\n' :: 'b' :: [] : PyStr) ≠ [] ∧
    joinSep (split_into_chunks ('a' :: '\n' :: '\n' :: '\n' :: 'b' :: []) 1500) ≠
      ('a' :: '\n' :: '\n' :: '\n' :: 'b' :: []) := by
  decide

/-- C4 (amended): for every non-empty text in chunking normal form —
non-empty paragraphs that carry no leading/trailing whitespace and no
blank-line run, joined by the `"\n\n"` separator — splitting with
`split_into_chunks` (any `max_chars`) and reassembling with `"\n\n"`
reproduces the text exactly. -/
theorem C4_roundtrip (ps : List PyStr) (max_chars : Nat) (hne : ps ≠ [])
    (hgood : ∀ p ∈ ps, GoodPara p) :
    joinSep (split_into_chunks (joinSep ps) max_chars) = joinSep ps := by
  unfold split_into_chunks
  rw [parasOf_joinSep ps hne hgood]
  rw [chunkFold_join max_chars ps [] [] (fun p hp => (hgood p hp).1)]
  simp [finishChunks]

/-- C4 witness: a two-paragraph normal-form text round-trips exactly,
with a `max_chars` that forces the two paragraphs into separate chunks. -/
theorem C4_roundtrip_witness :
    joinSep (split_into_chunks
        (joinSep [("hello world".data), ("second para".data)]) 20) =
      joinSep [("hello world".data), ("second para".data)] :=
  C4_roundtrip [("hello world".data), ("second para".data)] 20 (by decide) (by decide)

end DocQA
